import Mathlib

/-!
A shallow embedding of the `pool` package (a connection pool for the MyMySQL
driver).  The Go source is modelled as a sequential state machine: the pool's
mutable fields (`openConnections`, `idleConnections`, `numPending`) become a
`PoolSt` record, each exported operation becomes a function `PoolSt → ...`,
and the environment (whether a ping succeeds, whether a network connect
succeeds, the current wall-clock time) is passed in as explicit oracle
arguments.  Connections are identified by natural-number ids; `nextId` is the
allocator.  Channel sends/receives on the idle channel become list operations
(the channel has capacity `maxConnections`; a non-blocking send succeeds iff
the list is shorter than that).
-/

namespace MymysqlPool

/-- Connection ids stand for `*Conn` pointers in the Go source. -/
abbrev ConnId := Nat

/-- The fields of `pool.Config` that the pool logic reads (address/credential
strings are opaque to every claim and are omitted; timeouts are kept as the
configured second counts). -/
structure Config where
  maxConnections : Nat
  maxConnectionAge : Nat
  connectTimeout : Nat
  requestTimeout : Nat
  keepConnectionsAlive : Bool
  deriving DecidableEq, Repr

/-- Per-connection mutable state: `conn.Conn`'s connected flag, the
`statements` cache (modelled by its key set, the cached SQL texts), the
`expiryDate`, and whether `conn.pool` is non-nil. -/
structure ConnSt where
  connected : Bool
  stmts : List String
  expiry : Nat
  hasPool : Bool
  deriving DecidableEq, Repr

instance : Inhabited ConnSt := ⟨⟨false, [], 0, false⟩⟩

/-- The pool state: `openConnections` (a set, kept as a duplicate-free list),
the `idleConnections` channel contents (front = next receive), `numPending`,
the config, and a table giving each connection id its `ConnSt`. -/
structure PoolSt where
  config : Config
  openConns : List ConnId
  idle : List ConnId
  numPending : Nat
  nextId : ConnId
  tbl : ConnId → ConnSt

/-- Update one connection's entry in the table. -/
def setConn (c : ConnId) (f : ConnSt → ConnSt) (s : PoolSt) : PoolSt :=
  { s with tbl := fun i => if i = c then f (s.tbl i) else s.tbl i }

/-- `conn.Conn.Close()`: the underlying network connection is closed; nothing
else changes (in particular the pool's open set is untouched). -/
def closeConn (c : ConnId) (s : PoolSt) : PoolSt :=
  setConn c (fun cs => { cs with connected := false }) s

/-- Errors observable from the package, flattened into one type: driver
(`*mysql.Error`) values carry their numeric code; `io.EOF` and other non-driver
errors are separate constructors; the package's own sentinel errors follow. -/
inductive PErr where
  | mysqlError (code : Nat)
  | ioEOF
  | other (msg : String)
  | requestTimeout
  | connectionNotInPool
  | connectFailed
  | poolExhausted (total avail maxConns : Nat)
  deriving DecidableEq, Repr

/-- The enumerated server-fatal codes of `destroyOnError`, verbatim from the
`switch` in conn.go. -/
def fatalCodes : List Nat :=
  [1021, 1037, 1041, 1042, 1043, 1044, 1045, 1053, 1077, 1078, 1079, 1080,
   1081, 1114, 1119, 1152, 1153, 1154, 1155, 1156, 1157, 1158, 1159, 1160,
   1161, 1188, 1189, 1190, 1194, 1195, 1197, 1203, 1218, 1219, 1436, 1459,
   1534, 1535, 1547, 1548, 1610, 1705]

/-- The classification test of `destroyOnError`: does this error cause
`conn.Destroy()`?  (`none` models a nil error.) -/
def shouldDestroy : Option PErr → Bool
  | none => false
  | some (PErr.mysqlError code) => fatalCodes.contains code || decide (2000 ≤ code)
  | some PErr.ioEOF => false
  | some _ => true

/-- `pool.createConn()` (pool lock held).  A fresh `Conn` struct is allocated
(expiry = now + connectionExpiry) and `Connect` is attempted; the oracle
`connectOk` says whether the network connect succeeds.  Only on success is the
connection registered in `openConnections`. -/
def createConn (connectOk : Bool) (now : Nat) (s : PoolSt) : Option ConnId × PoolSt :=
  let c := s.nextId
  let s1 := { s with nextId := c + 1 }
  if connectOk then
    let s2 := setConn c
      (fun _ => { connected := true, stmts := [], expiry := now + s.config.maxConnectionAge,
                  hasPool := true }) s1
    (some c, { s2 with openConns := c :: s2.openConns })
  else
    (none, s1)

/-- `Conn.Destroy()`: close the underlying connection if open; if the pool
back-reference is set, remove the connection from the open set, clear its
statement cache and its back-reference, and — when callers are pending —
backfill one replacement onto the idle channel (creation failure swallowed).
`bfOk` is the connect oracle for the backfill creation. -/
def destroy (c : ConnId) (bfOk : Bool) (now : Nat) (s : PoolSt) : PoolSt :=
  let s0 := if (s.tbl c).connected then closeConn c s else s
  if (s0.tbl c).hasPool then
    let s1 := { s0 with openConns := s0.openConns.erase c }
    let s2 := setConn c (fun cs => { cs with stmts := [], hasPool := false }) s1
    if 0 < s2.numPending then
      let r := createConn bfOk now s2
      match r.1 with
      | some n => { r.2 with idle := r.2.idle ++ [n] }
      | none => r.2
    else s2
  else s0

/-- `Conn.destroyOnError(f)`: run the work (its result is the `e` argument),
destroy the connection if the error is classified fatal, and return the
original error unchanged either way. -/
def destroyOnError (c : ConnId) (e : Option PErr) (bfOk : Bool) (now : Nat)
    (s : PoolSt) : Option PErr × PoolSt :=
  if shouldDestroy e then (e, destroy c bfOk now s) else (e, s)

/-- `Conn.verify()`: false (destroying the connection) when the underlying
connection is disconnected, the ping fails, or — when a max age is
configured — the expiry date lies in the past; true (no change) otherwise.
`pingOk` is the ping oracle, `bfOk` the connect oracle for any backfill
triggered by the destroy. -/
def verify (c : ConnId) (pingOk bfOk : Bool) (now : Nat) (s : PoolSt) : Bool × PoolSt :=
  if !(s.tbl c).connected then
    (false, destroy c bfOk now s)
  else if !pingOk then
    (false, destroy c bfOk now s)
  else if 0 < s.config.maxConnectionAge ∧ (s.tbl c).expiry < now then
    (false, destroy c bfOk now s)
  else
    (true, s)

/-- `Conn.Release()`: error if the pool back-reference is nil; if
`KeepConnectionsAlive` and the connection verifies, push it onto the idle
channel non-blockingly (destroying it when the channel is full) and return
nil; in every other pooled case fall through to `Destroy()` and return nil.
(When `verify` fails it has already destroyed the connection, so the
fall-through `Destroy` is a no-op.) -/
def release (c : ConnId) (pingOk bfOk : Bool) (now : Nat) (s : PoolSt) :
    Option PErr × PoolSt :=
  if !(s.tbl c).hasPool then
    (some PErr.connectionNotInPool, s)
  else if s.config.keepConnectionsAlive then
    let v := verify c pingOk bfOk now s
    if v.1 then
      if v.2.idle.length < v.2.config.maxConnections then
        (none, { v.2 with idle := v.2.idle ++ [c] })
      else
        (none, destroy c bfOk now v.2)
    else
      (none, destroy c bfOk now v.2)
  else
    (none, destroy c bfOk now s)

/-- `Pool.Size()`. -/
def size (s : PoolSt) : Nat × Nat :=
  (s.openConns.length, s.idle.length)

/-- Result of `Pool.Get()` in the fuel-indexed model. -/
inductive GetRes where
  | ok (c : ConnId)
  | err (e : PErr)
  | outOfFuel
  deriving DecidableEq, Repr

/-- `Pool.Get()`.  The `for` loop becomes fuel-indexed recursion; `ping` and
`cok` are the per-iteration oracle streams (iteration counter `k`).  The
non-blocking receive on the idle channel succeeds iff the list is non-empty.
In this sequential model no concurrent sender exists, so the blocking receive
in the wait branch can only end in the `time.After` timeout: the pending
counter rises, the timeout fires, `Size` is read for the error message, and
the deferred decrement restores the counter on return. -/
def get (fuel : Nat) (ping cok : Nat → Bool) (now k : Nat) (s : PoolSt) :
    GetRes × PoolSt :=
  match fuel with
  | 0 => (GetRes.outOfFuel, s)
  | fuel' + 1 =>
    match s.idle with
    | c :: rest =>
      let v := verify c (ping k) (cok k) now { s with idle := rest }
      if v.1 then (GetRes.ok c, v.2)
      else get fuel' ping cok now (k + 1) v.2
    | [] =>
      if s.openConns.length < s.config.maxConnections then
        let r := createConn (cok k) now s
        match r.1 with
        | some c => (GetRes.ok c, r.2)
        | none => (GetRes.err PErr.connectFailed, r.2)
      else
        let s1 := { s with numPending := s.numPending + 1 }
        let total := s1.openConns.length
        let avail := s1.idle.length
        (GetRes.err (PErr.poolExhausted total avail s.config.maxConnections),
         { s1 with numPending := s1.numPending - 1 })

/-- `pool.New(config)`: a fresh pool has no connections open, an empty idle
channel, and no pending waiters. -/
def freshPool (cfg : Config) : PoolSt :=
  { config := cfg, openConns := [], idle := [], numPending := 0, nextId := 0,
    tbl := fun _ => default }

/-- `Pool.Conn()`: locks the pool and calls `createConn` directly — note that,
unlike the creation step inside `Get`, it performs no capacity check. -/
def poolConn (connectOk : Bool) (now : Nat) (s : PoolSt) : Option ConnId × PoolSt :=
  createConn connectOk now s

/-- `Conn.withTimeout(f)`: the work races a timer set to the pool's request
timeout.  The `deadline` oracle says whether the timer fires before the work
completes.  If it does, the connection is closed (`conn.Close()`) and
`ErrRequestTimeout` is returned; the goroutine's late effects are outside this
sequential model.  Otherwise the work runs and its own result is returned. -/
def withTimeout (c : ConnId) (work : PoolSt → Option PErr × PoolSt) (deadline : Bool)
    (s : PoolSt) : Option PErr × PoolSt :=
  if deadline then (some PErr.requestTimeout, closeConn c s)
  else work s

/-- `Conn.Query`: the return value of `withTimeout` is discarded; the caller
sees the named return `err`, assigned inside the inner closure by the driver
call — still nil when the deadline fired before that assignment.  `workErr` is
the driver call's error. -/
def connQuery (c : ConnId) (workErr : Option PErr) (deadline bfOk : Bool) (now : Nat)
    (s : PoolSt) : Option PErr × PoolSt :=
  let wt := withTimeout c (fun st => destroyOnError c workErr bfOk now st) deadline s
  (if deadline then none else workErr, wt.2)

/-- `Conn.QueryFirst`: same discarded-`withTimeout` shape as `Conn.Query`. -/
def connQueryFirst (c : ConnId) (workErr : Option PErr) (deadline bfOk : Bool) (now : Nat)
    (s : PoolSt) : Option PErr × PoolSt :=
  let wt := withTimeout c (fun st => destroyOnError c workErr bfOk now st) deadline s
  (if deadline then none else workErr, wt.2)

/-- `Conn.QueryLast`: same discarded-`withTimeout` shape as `Conn.Query`. -/
def connQueryLast (c : ConnId) (workErr : Option PErr) (deadline bfOk : Bool) (now : Nat)
    (s : PoolSt) : Option PErr × PoolSt :=
  let wt := withTimeout c (fun st => destroyOnError c workErr bfOk now st) deadline s
  (if deadline then none else workErr, wt.2)

/-- `Conn.Start`: same discarded-`withTimeout` shape as `Conn.Query`. -/
def connStart (c : ConnId) (workErr : Option PErr) (deadline bfOk : Bool) (now : Nat)
    (s : PoolSt) : Option PErr × PoolSt :=
  let wt := withTimeout c (fun st => destroyOnError c workErr bfOk now st) deadline s
  (if deadline then none else workErr, wt.2)

/-- `Conn.Begin`: same discarded-`withTimeout` shape as `Conn.Query`. -/
def connBegin (c : ConnId) (workErr : Option PErr) (deadline bfOk : Bool) (now : Nat)
    (s : PoolSt) : Option PErr × PoolSt :=
  let wt := withTimeout c (fun st => destroyOnError c workErr bfOk now st) deadline s
  (if deadline then none else workErr, wt.2)

/-- `Stmt.Exec`: same discarded-`withTimeout` shape as `Conn.Query`, on the
statement's connection. -/
def stmtExec (c : ConnId) (workErr : Option PErr) (deadline bfOk : Bool) (now : Nat)
    (s : PoolSt) : Option PErr × PoolSt :=
  let wt := withTimeout c (fun st => destroyOnError c workErr bfOk now st) deadline s
  (if deadline then none else workErr, wt.2)

/-- `Stmt.ExecFirst`: same discarded-`withTimeout` shape as `Stmt.Exec`. -/
def stmtExecFirst (c : ConnId) (workErr : Option PErr) (deadline bfOk : Bool) (now : Nat)
    (s : PoolSt) : Option PErr × PoolSt :=
  let wt := withTimeout c (fun st => destroyOnError c workErr bfOk now st) deadline s
  (if deadline then none else workErr, wt.2)

/-- `Stmt.ExecLast`: same discarded-`withTimeout` shape as `Stmt.Exec`. -/
def stmtExecLast (c : ConnId) (workErr : Option PErr) (deadline bfOk : Bool) (now : Nat)
    (s : PoolSt) : Option PErr × PoolSt :=
  let wt := withTimeout c (fun st => destroyOnError c workErr bfOk now st) deadline s
  (if deadline then none else workErr, wt.2)

/-- `Conn.Use`: returns the result of `withTimeout` directly. -/
def connUse (c : ConnId) (workErr : Option PErr) (deadline bfOk : Bool) (now : Nat)
    (s : PoolSt) : Option PErr × PoolSt :=
  withTimeout c (fun st => destroyOnError c workErr bfOk now st) deadline s

/-- `Transaction.Commit`: returns the result of `withTimeout` directly. -/
def transCommit (c : ConnId) (workErr : Option PErr) (deadline bfOk : Bool) (now : Nat)
    (s : PoolSt) : Option PErr × PoolSt :=
  withTimeout c (fun st => destroyOnError c workErr bfOk now st) deadline s

/-- `Transaction.Rollback`: returns the result of `withTimeout` directly. -/
def transRollback (c : ConnId) (workErr : Option PErr) (deadline bfOk : Bool) (now : Nat)
    (s : PoolSt) : Option PErr × PoolSt :=
  withTimeout c (fun st => destroyOnError c workErr bfOk now st) deadline s

/-- `Conn.Prepare(sql)`: a cache hit returns the cached statement at once (no
driver call, no timeout race, no error); otherwise the driver prepare runs
under `withTimeout`/`destroyOnError` and on success the statement is cached.
`prepErr` is the driver prepare's error, and the result of `withTimeout` is
assigned to the named return `err`, so `Prepare` does surface the timeout. -/
def connPrepare (c : ConnId) (sql : String) (prepErr : Option PErr) (deadline bfOk : Bool)
    (now : Nat) (s : PoolSt) : Option PErr × PoolSt :=
  if (s.tbl c).stmts.contains sql then (none, s)
  else
    withTimeout c (fun st =>
      match prepErr with
      | none => destroyOnError c none bfOk now
          (setConn c (fun cs => { cs with stmts := sql :: cs.stmts }) st)
      | some e => destroyOnError c (some e) bfOk now st) deadline s

/-- `Stmt.Delete()`: runs the driver delete under `destroyOnError`; only when
it succeeds is the entry removed from the connection's statement cache. -/
def stmtDelete (c : ConnId) (sql : String) (delErr : Option PErr) (bfOk : Bool) (now : Nat)
    (s : PoolSt) : Option PErr × PoolSt :=
  match delErr with
  | none => destroyOnError c none bfOk now
      (setConn c (fun cs => { cs with stmts := cs.stmts.erase sql }) s)
  | some e => destroyOnError c (some e) bfOk now s

/-- `n` successive `Pool.Get()` calls on a fresh pool, with every ping and
every connect succeeding (fuel 1 suffices: on these states `Get` never
retries). -/
def leaseN (cfg : Config) (now : Nat) : Nat → List GetRes × PoolSt
  | 0 => ([], freshPool cfg)
  | n + 1 =>
    let p := leaseN cfg now n
    let q := get 1 (fun _ => true) (fun _ => true) now 0 p.2
    (p.1 ++ [q.1], q.2)

/-- The pool state reached after `n ≤ maxConnections` successful leases from a
fresh pool: connections `0..n-1` open and leased out, idle empty. -/
def afterN (cfg : Config) (now : Nat) (n : Nat) : PoolSt :=
  { config := cfg, openConns := (List.range n).reverse, idle := [], numPending := 0,
    nextId := n,
    tbl := fun i =>
      if i < n then
        { connected := true, stmts := [], expiry := now + cfg.maxConnectionAge,
          hasPool := true }
      else default }

/-- The pool invariants claimed by the spec (§3), plus the bookkeeping facts
(duplicate-freedom, id freshness, open-set/back-reference agreement) that make
them inductive. -/
def Invariant (s : PoolSt) : Prop :=
  s.openConns.Nodup ∧
  s.idle.Nodup ∧
  s.openConns.length ≤ s.config.maxConnections ∧
  s.idle.length ≤ s.openConns.length ∧
  (∀ c ∈ s.idle, c ∈ s.openConns) ∧
  (∀ c ∈ s.openConns, c < s.nextId) ∧
  (∀ c ∈ s.openConns, (s.tbl c).hasPool = true) ∧
  (∀ c : ConnId, (s.tbl c).hasPool = true → c ∈ s.openConns)

/-- A small concrete configuration (capacity 1, no max age, keep-alive on),
used to instantiate the theorems on concrete states. -/
def cfg1 : Config :=
  { maxConnections := 1, maxConnectionAge := 0, connectTimeout := 2,
    requestTimeout := 5, keepConnectionsAlive := true }

/-- A pool of capacity 1 holding one freshly created (leased-out) connection,
id 0: the state reached from `New` followed by one successful create. -/
def onePool : PoolSt :=
  (createConn true 0 (freshPool cfg1)).2

/-- `onePool` after a successful `Prepare "q"` on connection 0: the statement
cache of connection 0 holds the text `"q"`. -/
def onePoolQ : PoolSt :=
  (connPrepare 0 "q" none false true 0 onePool).2

/-- The bookkeeping part of `Destroy` on a pooled connection, as one update:
closed, removed from the open set, statement cache cleared, back-reference
cleared.  (Proven equal to what `destroy` computes — see
`destroy_pooled_eq`.) -/
def destroyBase (c : ConnId) (s : PoolSt) : PoolSt :=
  setConn c (fun cs => { cs with connected := false, stmts := [], hasPool := false })
    { s with openConns := s.openConns.erase c }

/-- `Destroy` on a pooled connection: `destroyBase` followed by the
pending-conditioned backfill. -/
def destroyPooled (c : ConnId) (bfOk : Bool) (now : Nat) (s : PoolSt) : PoolSt :=
  let s2 := destroyBase c s
  if 0 < s2.numPending then
    let r := createConn bfOk now s2
    match r.1 with
    | some n => { r.2 with idle := r.2.idle ++ [n] }
    | none => r.2
  else s2

section Helpers

/-! Projection lemmas for the state-updating primitives. -/

theorem setConn_tbl_self (c : ConnId) (f : ConnSt → ConnSt) (s : PoolSt) :
    (setConn c f s).tbl c = f (s.tbl c) := by
  simp [setConn]

theorem setConn_tbl_ne (c i : ConnId) (f : ConnSt → ConnSt) (s : PoolSt) (h : i ≠ c) :
    (setConn c f s).tbl i = s.tbl i := by
  simp [setConn, h]

theorem closeConn_hasPool (c i : ConnId) (s : PoolSt) :
    ((closeConn c s).tbl i).hasPool = (s.tbl i).hasPool := by
  by_cases h : i = c <;> simp [closeConn, setConn, h]

theorem closeConn_stmts (c i : ConnId) (s : PoolSt) :
    ((closeConn c s).tbl i).stmts = (s.tbl i).stmts := by
  by_cases h : i = c <;> simp [closeConn, setConn, h]

theorem closeConn_expiry (c i : ConnId) (s : PoolSt) :
    ((closeConn c s).tbl i).expiry = (s.tbl i).expiry := by
  by_cases h : i = c <;> simp [closeConn, setConn, h]

theorem closeConn_connected_self (c : ConnId) (s : PoolSt) :
    ((closeConn c s).tbl c).connected = false := by
  simp [closeConn, setConn]

/-- `verify` either succeeds leaving the state alone, or fails having run
`destroy` on the connection. -/
theorem verify_cases (c : ConnId) (pingOk bfOk : Bool) (now : Nat) (s : PoolSt) :
    verify c pingOk bfOk now s = (true, s) ∨
    verify c pingOk bfOk now s = (false, destroy c bfOk now s) := by
  unfold verify
  split
  · exact Or.inr rfl
  · split
    · exact Or.inr rfl
    · split
      · exact Or.inr rfl
      · exact Or.inl rfl

theorem verify_true_snd {c : ConnId} {pingOk bfOk : Bool} {now : Nat} {s : PoolSt}
    (h : (verify c pingOk bfOk now s).1 = true) :
    (verify c pingOk bfOk now s).2 = s := by
  rcases verify_cases c pingOk bfOk now s with h' | h'
  · rw [h']
  · rw [h'] at h; cases h

theorem verify_false_snd {c : ConnId} {pingOk bfOk : Bool} {now : Nat} {s : PoolSt}
    (h : (verify c pingOk bfOk now s).1 = false) :
    (verify c pingOk bfOk now s).2 = destroy c bfOk now s := by
  rcases verify_cases c pingOk bfOk now s with h' | h'
  · rw [h'] at h; cases h
  · rw [h']

/-- `destroy` leaves the idle queue alone except possibly appending the
backfill replacement (which carries the fresh id `s.nextId`). -/
theorem destroy_idle (c : ConnId) (bfOk : Bool) (now : Nat) (s : PoolSt) :
    (destroy c bfOk now s).idle = s.idle ∨
    (destroy c bfOk now s).idle = s.idle ++ [s.nextId] := by
  unfold destroy
  simp only []
  cases bfOk <;> split <;> (try split) <;> (try split) <;>
    first
      | exact Or.inl rfl
      | exact Or.inr rfl

/-- On a connection with no pool back-reference, `destroy` only closes the
underlying connection. -/
theorem destroy_not_pooled {c : ConnId} {bfOk : Bool} {now : Nat} {s : PoolSt}
    (hp : (s.tbl c).hasPool = false) :
    destroy c bfOk now s = if (s.tbl c).connected then closeConn c s else s := by
  unfold destroy
  cases hcon : (s.tbl c).connected <;>
    simp [hcon, closeConn_hasPool, hp]

/-- On a pooled connection, `destroy` computes `destroyPooled`. -/
theorem destroy_pooled_eq {c : ConnId} {bfOk : Bool} {now : Nat} {s : PoolSt}
    (hp : (s.tbl c).hasPool = true) :
    destroy c bfOk now s = destroyPooled c bfOk now s := by
  unfold destroy destroyPooled
  cases hcon : (s.tbl c).connected
  · simp only [hcon, Bool.false_eq_true, if_false, hp, if_true]
    have e : setConn c (fun cs => { cs with stmts := [], hasPool := false })
        { s with openConns := s.openConns.erase c } = destroyBase c s := by
      unfold destroyBase setConn
      congr 1
      funext i
      by_cases hi : i = c
      · subst hi
        simp only [if_pos rfl]
        rw [hcon]
      · simp [hi]
    rw [e]
  · simp only [hcon, if_true, closeConn_hasPool, hp]
    have e : setConn c (fun cs => { cs with stmts := [], hasPool := false })
        { closeConn c s with openConns := (closeConn c s).openConns.erase c } =
        destroyBase c s := by
      unfold destroyBase closeConn setConn
      congr 1
      funext i
      by_cases hi : i = c
      · subst hi
        simp
      · simp [hi]
    rw [e]

/-- `destroy` on an already-closed, already-unpooled connection is the
identity. -/
theorem destroy_of_clean {c : ConnId} {bfOk : Bool} {now : Nat} {s : PoolSt}
    (h1 : (s.tbl c).hasPool = false) (h2 : (s.tbl c).connected = false) :
    destroy c bfOk now s = s := by
  rw [destroy_not_pooled h1, h2]
  simp

/-- After any `destroy`, the destroyed connection's back-reference is cleared
and its underlying connection is closed (the backfill replacement carries a
fresh id, so it cannot overwrite this entry). -/
theorem destroy_tbl_c (bfOk : Bool) (now : Nat) {c : ConnId} {s : PoolSt}
    (hfresh : c < s.nextId) :
    ((destroy c bfOk now s).tbl c).hasPool = false ∧
    ((destroy c bfOk now s).tbl c).connected = false := by
  have hne : ¬ (c = s.nextId) := Nat.ne_of_lt hfresh
  cases hp : (s.tbl c).hasPool
  · rw [destroy_not_pooled hp]
    cases hcon : (s.tbl c).connected <;>
      simp [hcon, closeConn_hasPool, closeConn_connected_self, hp]
  · rw [destroy_pooled_eq hp]
    unfold destroyPooled
    simp only []
    split
    · cases bfOk
      · simp [createConn, destroyBase, setConn]
      · simp [createConn, destroyBase, setConn, hne]
    · simp [destroyBase, setConn]

/-- A `Prepare` whose SQL text is already cached returns at once with no
error and no state change. -/
theorem connPrepare_hit {c : ConnId} {sql : String} {prepErr : Option PErr}
    {deadline bfOk : Bool} {now : Nat} {s : PoolSt}
    (h : sql ∈ (s.tbl c).stmts) :
    connPrepare c sql prepErr deadline bfOk now s = (none, s) := by
  simp [connPrepare, h]

/-- Destroying a pooled connection clears its statement cache. -/
theorem destroy_stmts_c {c : ConnId} {bfOk : Bool} {now : Nat} {s : PoolSt}
    (hp : (s.tbl c).hasPool = true) (hfresh : c < s.nextId) :
    ((destroy c bfOk now s).tbl c).stmts = [] := by
  have hne : ¬ (c = s.nextId) := Nat.ne_of_lt hfresh
  rw [destroy_pooled_eq hp]
  unfold destroyPooled
  simp only []
  split
  · cases bfOk
    · simp [createConn, destroyBase, setConn]
    · simp [createConn, destroyBase, setConn, hne]
  · simp [destroyBase, setConn]

end Helpers

/-- Claim C2: `destroyOnError` always returns the original error unchanged;
it leaves the connection intact on nil and on `io.EOF`, destroys it on any
other non-driver error, destroys it on a driver error whose code is in the
enumerated server-fatal set or is ≥ 2000, and leaves it intact on every other
driver error.  Concretely, code 1021 destroys, code 1022 leaves intact, and
code 2006 destroys. -/
theorem C2_destroyOnError_classification (c : ConnId) (bfOk : Bool) (now : Nat)
    (s : PoolSt) :
    (∀ e, (destroyOnError c e bfOk now s).1 = e) ∧
    (destroyOnError c none bfOk now s).2 = s ∧
    (destroyOnError c (some PErr.ioEOF) bfOk now s).2 = s ∧
    (∀ msg, (destroyOnError c (some (PErr.other msg)) bfOk now s).2 =
      destroy c bfOk now s) ∧
    (∀ code, 2000 ≤ code →
      (destroyOnError c (some (PErr.mysqlError code)) bfOk now s).2 =
        destroy c bfOk now s) ∧
    (∀ code, code ∈ fatalCodes →
      (destroyOnError c (some (PErr.mysqlError code)) bfOk now s).2 =
        destroy c bfOk now s) ∧
    (∀ code, code ∉ fatalCodes → code < 2000 →
      (destroyOnError c (some (PErr.mysqlError code)) bfOk now s).2 = s) ∧
    (destroyOnError c (some (PErr.mysqlError 1021)) bfOk now s).2 =
      destroy c bfOk now s ∧
    (destroyOnError c (some (PErr.mysqlError 1022)) bfOk now s).2 = s ∧
    (destroyOnError c (some (PErr.mysqlError 2006)) bfOk now s).2 =
      destroy c bfOk now s := by
  refine ⟨?_, rfl, rfl, ?_, ?_, ?_, ?_, rfl, rfl, rfl⟩
  · intro e
    unfold destroyOnError
    split <;> rfl
  · intro msg
    rfl
  · intro code hcode
    have h : shouldDestroy (some (PErr.mysqlError code)) = true := by
      simp only [shouldDestroy, Bool.or_eq_true, decide_eq_true_eq]
      exact Or.inr hcode
    simp [destroyOnError, h]
  · intro code hmem
    have h : shouldDestroy (some (PErr.mysqlError code)) = true := by
      simp only [shouldDestroy, Bool.or_eq_true, decide_eq_true_eq]
      exact Or.inl (List.elem_iff.mpr hmem)
    simp [destroyOnError, h]
  · intro code hmem hlt
    have h : shouldDestroy (some (PErr.mysqlError code)) = false := by
      simp only [shouldDestroy, Bool.or_eq_false_iff, decide_eq_false_iff_not]
      exact ⟨by simpa using hmem, by omega⟩
    simp [destroyOnError, h]

/-- Witness for C2 at concrete codes: 2055 (≥ 2000) destroys, 1152 (in the
enumerated set) destroys, 1105 (neither) leaves the state intact. -/
theorem C2_destroyOnError_classification_witness :
    (destroyOnError 0 (some (PErr.mysqlError 2055)) true 0 onePool).2 =
      destroy 0 true 0 onePool ∧
    (destroyOnError 0 (some (PErr.mysqlError 1152)) true 0 onePool).2 =
      destroy 0 true 0 onePool ∧
    (destroyOnError 0 (some (PErr.mysqlError 1105)) true 0 onePool).2 = onePool := by
  refine ⟨?_, ?_, ?_⟩
  · exact (C2_destroyOnError_classification 0 true 0 onePool).2.2.2.2.1 2055 (by decide)
  · exact (C2_destroyOnError_classification 0 true 0 onePool).2.2.2.2.2.1 1152 (by decide)
  · exact (C2_destroyOnError_classification 0 true 0 onePool).2.2.2.2.2.2.1 1105
      (by decide) (by decide)

/-- Claim C7: `verify` returns false and destroys the connection exactly when
the underlying connection is disconnected, the ping fails, or the expiry
timestamp has passed; the expiry comparison is skipped when the configured max
connection age is zero; otherwise it returns true and leaves the state
unchanged. -/
theorem C7_verify_characterization (c : ConnId) (pingOk bfOk : Bool) (now : Nat)
    (s : PoolSt) :
    (((s.tbl c).connected = false ∨ pingOk = false ∨
        (0 < s.config.maxConnectionAge ∧ (s.tbl c).expiry < now)) →
      verify c pingOk bfOk now s = (false, destroy c bfOk now s)) ∧
    ((s.tbl c).connected = true → pingOk = true →
      ¬(0 < s.config.maxConnectionAge ∧ (s.tbl c).expiry < now) →
      verify c pingOk bfOk now s = (true, s)) ∧
    (s.config.maxConnectionAge = 0 → (s.tbl c).connected = true → pingOk = true →
      verify c pingOk bfOk now s = (true, s)) := by
  refine ⟨?_, ?_, ?_⟩
  · rintro (h | h | h)
    · simp [verify, h]
    · by_cases hc : (s.tbl c).connected <;> simp [verify, hc, h]
    · by_cases hc : (s.tbl c).connected
      · by_cases hq : pingOk <;> simp [verify, hc, hq, h]
      · simp [verify, hc]
  · intro hc hq hexp
    simp [verify, hc, hq, hexp]
  · intro ha hc hq
    simp [verify, hc, hq, ha]

/-- Witness for C7: on `onePool` (connected, max age 0, ping succeeding),
`verify` returns true and changes nothing; with a failing ping it destroys. -/
theorem C7_verify_characterization_witness :
    verify 0 true true 7 onePool = (true, onePool) ∧
    verify 0 false true 7 onePool = (false, destroy 0 true 7 onePool) := by
  constructor
  · exact (C7_verify_characterization 0 true true 7 onePool).2.2 (by decide) (by decide)
      (by decide)
  · exact (C7_verify_characterization 0 false true 7 onePool).1 (Or.inr (Or.inl rfl))

/-- Claim C3 counterexample: on `onePool`, when the per-operation deadline
fires, `withTimeout` returns `RequestTimeout` and closes the connection, but
the connection is NOT removed from the pool's state: it is still in the open
set and its pool back-reference is still set.  The claim's "the connection is
always destroyed as a side effect (closed and removed from the pool's state)"
is therefore false. -/
theorem C3_withTimeout_counterexample :
    (withTimeout 0 (fun st => (none, st)) true onePool).1 = some PErr.requestTimeout ∧
    0 ∈ (withTimeout 0 (fun st => (none, st)) true onePool).2.openConns ∧
    ((withTimeout 0 (fun st => (none, st)) true onePool).2.tbl 0).hasPool = true ∧
    ((withTimeout 0 (fun st => (none, st)) true onePool).2.tbl 0).connected = false := by
  refine ⟨rfl, ?_, rfl, rfl⟩
  show 0 ∈ (closeConn 0 onePool).openConns
  decide

/-- Claim C3 (amended): when the deadline fires, `withTimeout` returns
`RequestTimeout` and closes the underlying connection, but the wrapper itself
does not remove the connection from the pool's open set (removal happens only
later, e.g. when the closed connection fails verification or a classified
error destroys it); when the work completes first, its own result is returned
and the wrapper does not close the connection. -/
theorem C3_withTimeout (c : ConnId) (work : PoolSt → Option PErr × PoolSt)
    (s : PoolSt) :
    withTimeout c work true s = (some PErr.requestTimeout, closeConn c s) ∧
    (closeConn c s).openConns = s.openConns ∧
    (closeConn c s).idle = s.idle ∧
    (closeConn c s).numPending = s.numPending ∧
    ((closeConn c s).tbl c).connected = false ∧
    ((closeConn c s).tbl c).hasPool = (s.tbl c).hasPool ∧
    withTimeout c work false s = work s := by
  refine ⟨rfl, rfl, rfl, rfl, ?_, ?_, rfl⟩
  · exact closeConn_connected_self c s
  · exact closeConn_hasPool c c s

/-- Claim C5: `Release` on a connection whose pool back-reference is nil
returns `ConnectionNotInPool` and changes nothing; otherwise it returns nil,
and: with keep-alive configured and verification passing it pushes the
connection onto the idle queue non-blockingly (destroying it instead when the
queue is full); with verification failing, or keep-alive off, the connection
is destroyed. -/
theorem C5_release_contract (c : ConnId) (pingOk bfOk : Bool) (now : Nat)
    (s : PoolSt) :
    ((s.tbl c).hasPool = false →
      release c pingOk bfOk now s = (some PErr.connectionNotInPool, s)) ∧
    ((s.tbl c).hasPool = true → (release c pingOk bfOk now s).1 = none) ∧
    ((s.tbl c).hasPool = true → s.config.keepConnectionsAlive = true →
      (verify c pingOk bfOk now s).1 = true →
      (release c pingOk bfOk now s).2 =
        if s.idle.length < s.config.maxConnections
        then { s with idle := s.idle ++ [c] }
        else destroy c bfOk now s) ∧
    ((s.tbl c).hasPool = true → s.config.keepConnectionsAlive = true →
      (verify c pingOk bfOk now s).1 = false →
      (release c pingOk bfOk now s).2 =
        destroy c bfOk now (destroy c bfOk now s)) ∧
    ((s.tbl c).hasPool = true → s.config.keepConnectionsAlive = false →
      (release c pingOk bfOk now s).2 = destroy c bfOk now s) := by
  refine ⟨?_, ?_, ?_, ?_, ?_⟩
  · intro h
    simp [release, h]
  · intro h
    by_cases hk : s.config.keepConnectionsAlive
    · rcases verify_cases c pingOk bfOk now s with hv | hv
      · simp only [release, h, Bool.not_true, Bool.false_eq_true, if_false, hk, if_true,
          hv]
        split <;> rfl
      · simp only [release, h, Bool.not_true, Bool.false_eq_true, if_false, hk, if_true,
          hv]
    · simp [release, h, hk]
  · intro h hk hv
    have hs := verify_true_snd hv
    simp only [release, h, Bool.not_true, Bool.false_eq_true, if_false, hk, if_true, hv,
      hs]
    split <;> rfl
  · intro h hk hv
    have hs := verify_false_snd hv
    simp only [release, h, Bool.not_true, Bool.false_eq_true, if_false, hk, if_true, hv,
      hs]
  · intro h hk
    simp [release, h, hk]

/-- Witness for C5 on `onePool`: releasing the leased connection 0 (keep-alive
on, verification passing, idle queue empty) pushes it onto the idle queue and
returns nil; releasing the never-pooled id 5 errors. -/
theorem C5_release_contract_witness :
    (release 0 true true 0 onePool).1 = none ∧
    (release 0 true true 0 onePool).2 = { onePool with idle := onePool.idle ++ [0] } ∧
    release 5 true true 0 onePool = (some PErr.connectionNotInPool, onePool) := by
  refine ⟨?_, ?_, ?_⟩
  · exact (C5_release_contract 0 true true 0 onePool).2.1 (by decide)
  · have h := (C5_release_contract 0 true true 0 onePool).2.2.1 (by decide) (by decide)
      (by decide)
    simpa using h
  · exact (C5_release_contract 5 true true 0 onePool).1 (by decide)

/-- Claim C6: `Destroy` on a pooled connection closes the underlying
connection, removes it from the open set, clears its statement cache and its
pool back-reference; when the pending-waiter counter is positive a single
replacement (the fresh id `s.nextId`) is created and pushed onto the idle
queue, and a failed replacement creation is swallowed (open set and idle queue
as if no backfill had been attempted). -/
theorem C6_destroy_effects (c : ConnId) (bfOk : Bool) (now : Nat) (s : PoolSt)
    (hp : (s.tbl c).hasPool = true) (hnd : s.openConns.Nodup)
    (hfresh : c < s.nextId) :
    ((destroy c bfOk now s).tbl c).connected = false ∧
    ((destroy c bfOk now s).tbl c).stmts = [] ∧
    ((destroy c bfOk now s).tbl c).hasPool = false ∧
    c ∉ (destroy c bfOk now s).openConns ∧
    (s.numPending = 0 →
      (destroy c bfOk now s).openConns = s.openConns.erase c ∧
      (destroy c bfOk now s).idle = s.idle) ∧
    (0 < s.numPending → bfOk = true →
      (destroy c bfOk now s).openConns = s.nextId :: s.openConns.erase c ∧
      (destroy c bfOk now s).idle = s.idle ++ [s.nextId] ∧
      ((destroy c bfOk now s).tbl s.nextId).connected = true ∧
      ((destroy c bfOk now s).tbl s.nextId).hasPool = true) ∧
    (0 < s.numPending → bfOk = false →
      (destroy c bfOk now s).openConns = s.openConns.erase c ∧
      (destroy c bfOk now s).idle = s.idle) := by
  have hne : ¬ (c = s.nextId) := Nat.ne_of_lt hfresh
  have hstmts : ((destroy c bfOk now s).tbl c).stmts = [] := destroy_stmts_c hp hfresh
  have hnp : ¬ 0 < s.numPending → destroy c bfOk now s = destroyBase c s := by
    intro hpd
    rw [destroy_pooled_eq hp]
    unfold destroyPooled
    simp only []
    rw [if_neg (show ¬ 0 < (destroyBase c s).numPending from hpd)]
  have hbt : 0 < s.numPending → bfOk = true →
      (destroy c bfOk now s).openConns = s.nextId :: s.openConns.erase c ∧
      (destroy c bfOk now s).idle = s.idle ++ [s.nextId] ∧
      ((destroy c bfOk now s).tbl s.nextId).connected = true ∧
      ((destroy c bfOk now s).tbl s.nextId).hasPool = true := by
    intro hpd hb
    subst hb
    rw [destroy_pooled_eq hp]
    unfold destroyPooled
    simp only []
    rw [if_pos (show 0 < (destroyBase c s).numPending from hpd)]
    simp [createConn, destroyBase, setConn]
  have hbf : 0 < s.numPending → bfOk = false →
      (destroy c bfOk now s).openConns = s.openConns.erase c ∧
      (destroy c bfOk now s).idle = s.idle := by
    intro hpd hb
    subst hb
    rw [destroy_pooled_eq hp]
    unfold destroyPooled
    simp only []
    rw [if_pos (show 0 < (destroyBase c s).numPending from hpd)]
    simp [createConn, destroyBase, setConn]
  obtain ⟨hpool, hconn⟩ := destroy_tbl_c bfOk now hfresh
  refine ⟨hconn, hstmts, hpool, ?_, ?_, hbt, hbf⟩
  · by_cases hpd : 0 < s.numPending
    · by_cases hb : bfOk = true
      · rw [(hbt hpd hb).1]
        simp only [List.mem_cons, not_or]
        exact ⟨hne, hnd.not_mem_erase⟩
      · rw [(hbf hpd (by simpa using hb)).1]
        exact hnd.not_mem_erase
    · rw [hnp hpd]
      simpa [destroyBase, setConn] using hnd.not_mem_erase
  · intro hz
    have hpd : ¬ 0 < s.numPending := by omega
    rw [hnp hpd]
    simp [destroyBase, setConn]

/-- Witness for C6 on a pool with one pending waiter: destroying connection 0
removes it and backfills the fresh connection 1 onto the idle queue. -/
theorem C6_destroy_effects_witness :
    (destroy 0 true 0 { onePool with numPending := 1 }).openConns = [1] ∧
    (destroy 0 true 0 { onePool with numPending := 1 }).idle = [1] ∧
    ((destroy 0 true 0 { onePool with numPending := 1 }).tbl 0).hasPool = false := by
  have h := C6_destroy_effects 0 true 0 { onePool with numPending := 1 }
    (by decide) (by decide) (by decide)
  obtain ⟨h1, h2, h3, h4, h5, h6, h7⟩ := h
  obtain ⟨e1, e2, e3, e4⟩ := h6 (by decide) rfl
  refine ⟨?_, ?_, h3⟩
  · rw [e1]
    decide
  · rw [e2]
    decide

/-- Claim C10: `Destroy` is idempotent on pool state — a second `Destroy` of
the same connection leaves the state exactly as the first left it (no open-set
change, no pending change, no idle change, no second backfill). -/
theorem C10_destroy_idempotent (c : ConnId) (bfOk bfOk2 : Bool) (now now2 : Nat)
    (s : PoolSt) (hfresh : c < s.nextId) :
    destroy c bfOk2 now2 (destroy c bfOk now s) = destroy c bfOk now s := by
  obtain ⟨h1, h2⟩ := destroy_tbl_c bfOk now hfresh
  exact destroy_of_clean h1 h2

/-- Witness for C10 at `onePool`, connection 0. -/
theorem C10_destroy_idempotent_witness :
    destroy 0 false 3 (destroy 0 true 0 onePool) = destroy 0 true 0 onePool :=
  C10_destroy_idempotent 0 true false 0 3 onePool (by decide)

/-- Claim C8 counterexample: with `"q"` cached on connection 0, a `Delete`
failing with the fatal driver code 2006 returns that error but does NOT leave
the cache entry in place — the fatal classification destroys the connection,
which clears the whole statement cache. -/
theorem C8_prepare_cache_counterexample :
    (onePoolQ.tbl 0).stmts.contains "q" = true ∧
    (stmtDelete 0 "q" (some (PErr.mysqlError 2006)) true 0 onePoolQ).1 =
      some (PErr.mysqlError 2006) ∧
    ((stmtDelete 0 "q" (some (PErr.mysqlError 2006)) true 0 onePoolQ).2.tbl 0).stmts.contains
      "q" = false :=
  ⟨rfl, rfl, rfl⟩

/-- Claim C8 (amended): a cache hit makes `Prepare` return the cached
statement with no driver call, no state change and no error; after a
successful `Prepare sql`, a second `Prepare sql` is such a hit regardless of
driver behaviour or deadline; a successful `Delete` removes exactly the entry
for `sql`, so a later `Prepare sql` misses (prepares afresh); an unsuccessful
`Delete` whose error is classified non-fatal changes nothing (the entry
stays); an unsuccessful `Delete` whose error is classified fatal destroys the
connection, clearing the entire statement cache — including the entry. -/
theorem C8_prepare_cache (c : ConnId) (sql : String) (bfOk : Bool) (now : Nat)
    (s : PoolSt) :
    ((s.tbl c).stmts.contains sql = true →
      ∀ prepErr deadline, connPrepare c sql prepErr deadline bfOk now s = (none, s)) ∧
    ((s.tbl c).stmts.contains sql = false →
      (connPrepare c sql none false bfOk now s).1 = none ∧
      ((connPrepare c sql none false bfOk now s).2.tbl c).stmts.contains sql = true ∧
      (∀ prepErr deadline,
        connPrepare c sql prepErr deadline bfOk now
            (connPrepare c sql none false bfOk now s).2 =
          (none, (connPrepare c sql none false bfOk now s).2))) ∧
    ((stmtDelete c sql none bfOk now s).1 = none ∧
      ((stmtDelete c sql none bfOk now s).2.tbl c).stmts = (s.tbl c).stmts.erase sql) ∧
    ((s.tbl c).stmts.Nodup →
      ((stmtDelete c sql none bfOk now s).2.tbl c).stmts.contains sql = false) ∧
    (∀ e, shouldDestroy (some e) = false →
      stmtDelete c sql (some e) bfOk now s = (some e, s)) ∧
    (∀ e, shouldDestroy (some e) = true → (s.tbl c).hasPool = true → c < s.nextId →
      (stmtDelete c sql (some e) bfOk now s).1 = some e ∧
      ((stmtDelete c sql (some e) bfOk now s).2.tbl c).stmts = []) := by
  refine ⟨?_, ?_, ?_, ?_, ?_, ?_⟩
  · intro h prepErr deadline
    exact connPrepare_hit (List.elem_iff.mp h)
  · intro h
    have h' : ¬ sql ∈ (s.tbl c).stmts := by simpa using h
    have hps : (connPrepare c sql none false bfOk now s).2 =
        setConn c (fun cs => { cs with stmts := sql :: cs.stmts }) s := by
      simp [connPrepare, h', withTimeout, destroyOnError, shouldDestroy]
    refine ⟨?_, ?_, ?_⟩
    · simp [connPrepare, h', withTimeout, destroyOnError, shouldDestroy]
    · rw [hps]
      simp [setConn]
    · intro prepErr deadline
      have hhit : sql ∈ ((connPrepare c sql none false bfOk now s).2.tbl c).stmts := by
        rw [hps]
        simp [setConn]
      exact connPrepare_hit hhit
  · constructor
    · simp [stmtDelete, destroyOnError, shouldDestroy]
    · simp [stmtDelete, destroyOnError, shouldDestroy, setConn]
  · intro hnd
    have : sql ∉ (s.tbl c).stmts.erase sql := hnd.not_mem_erase
    simp [stmtDelete, destroyOnError, shouldDestroy, setConn, this]
  · intro e he
    simp [stmtDelete, destroyOnError, he]
  · intro e he hp hfresh
    constructor
    · simp [stmtDelete, destroyOnError, he]
    · have : (stmtDelete c sql (some e) bfOk now s).2 = destroy c bfOk now s := by
        simp [stmtDelete, destroyOnError, he]
      rw [this]
      exact destroy_stmts_c hp hfresh

/-- Witness for C8 on `onePool`/`onePoolQ`: a first `Prepare "q"` caches it, a
second is a hit; a successful `Delete` removes it; a failing non-fatal
`Delete` (code 1022) leaves it. -/
theorem C8_prepare_cache_witness :
    (connPrepare 0 "q" none false true 0 onePool).1 = none ∧
    connPrepare 0 "q" (some (PErr.mysqlError 1146)) true true 0 onePoolQ =
      (none, onePoolQ) ∧
    ((stmtDelete 0 "q" none true 0 onePoolQ).2.tbl 0).stmts.contains "q" = false ∧
    stmtDelete 0 "q" (some (PErr.mysqlError 1022)) true 0 onePoolQ =
      (some (PErr.mysqlError 1022), onePoolQ) := by
  refine ⟨?_, ?_, ?_, ?_⟩
  · exact ((C8_prepare_cache 0 "q" true 0 onePool).2.1 (by decide)).1
  · exact (C8_prepare_cache 0 "q" true 0 onePoolQ).1 (by decide) (some (PErr.mysqlError 1146)) true
  · exact (C8_prepare_cache 0 "q" true 0 onePoolQ).2.2.2.1 (by decide)
  · exact (C8_prepare_cache 0 "q" true 0 onePoolQ).2.2.2.2.1 (PErr.mysqlError 1022)
      (by decide)

/-- Claim C9: when the deadline fires, `Query`/`QueryFirst`/`QueryLast`/
`Start`/`Begin` and `Stmt.Exec`/`ExecFirst`/`ExecLast` discard the result of
`withTimeout` and return the (unassigned, hence nil) closure error — not
`RequestTimeout`; whereas `Use`, `Prepare` (on a cache miss), `Commit` and
`Rollback` return `withTimeout`'s result and so do surface `RequestTimeout`.
When the work completes in time the Query family returns the driver error. -/
theorem C9_requestTimeout_surface (c : ConnId) (workErr : Option PErr) (bfOk : Bool)
    (now : Nat) (s : PoolSt) :
    ((connQuery c workErr true bfOk now s).1 = none ∧
     (connQueryFirst c workErr true bfOk now s).1 = none ∧
     (connQueryLast c workErr true bfOk now s).1 = none ∧
     (connStart c workErr true bfOk now s).1 = none ∧
     (connBegin c workErr true bfOk now s).1 = none ∧
     (stmtExec c workErr true bfOk now s).1 = none ∧
     (stmtExecFirst c workErr true bfOk now s).1 = none ∧
     (stmtExecLast c workErr true bfOk now s).1 = none) ∧
    ((connUse c workErr true bfOk now s).1 = some PErr.requestTimeout ∧
     (transCommit c workErr true bfOk now s).1 = some PErr.requestTimeout ∧
     (transRollback c workErr true bfOk now s).1 = some PErr.requestTimeout) ∧
    (∀ sql prepErr, ¬ sql ∈ (s.tbl c).stmts →
      (connPrepare c sql prepErr true bfOk now s).1 = some PErr.requestTimeout) ∧
    ((connQuery c workErr false bfOk now s).1 = workErr ∧
     (connUse c workErr false bfOk now s).1 = workErr) := by
  refine ⟨⟨rfl, rfl, rfl, rfl, rfl, rfl, rfl, rfl⟩, ⟨rfl, rfl, rfl⟩, ?_, rfl, ?_⟩
  · intro sql prepErr h
    simp [connPrepare, h, withTimeout]
  · unfold connUse withTimeout destroyOnError
    simp only [Bool.false_eq_true, if_false]
    split <;> rfl

/-- Witness for C9: on `onePool` with a deadline firing during an uncached
`Prepare`, the caller sees `RequestTimeout`, while a timed-out `Query` on the
same state reports no error at all. -/
theorem C9_requestTimeout_surface_witness :
    (connPrepare 0 "p" none true true 0 onePool).1 = some PErr.requestTimeout ∧
    (connQuery 0 none true true 0 onePool).1 = none := by
  constructor
  · exact (C9_requestTimeout_surface 0 none true 0 onePool).2.2.1 "p" none (by decide)
  · exact (C9_requestTimeout_surface 0 none true 0 onePool).1.1

section GetLemmas

/-- One step of `Get` with a non-empty idle channel: non-blocking pop, then
mandatory verify; on verify failure the loop retries from the top. -/
theorem get_step_idle (ping cok : Nat → Bool) (now k fuel : Nat) (s : PoolSt)
    (c : ConnId) (rest : List ConnId) (h : s.idle = c :: rest) :
    get (fuel + 1) ping cok now k s =
      (if (verify c (ping k) (cok k) now { s with idle := rest }).1 then
        (GetRes.ok c, (verify c (ping k) (cok k) now { s with idle := rest }).2)
       else get fuel ping cok now (k + 1)
         (verify c (ping k) (cok k) now { s with idle := rest }).2) := by
  simp only [get]
  rw [h]

/-- One step of `Get` with an empty idle channel and spare capacity: a new
connection is created synchronously. -/
theorem get_step_create (ping cok : Nat → Bool) (now k fuel : Nat) (s : PoolSt)
    (h : s.idle = []) (hlt : s.openConns.length < s.config.maxConnections) :
    get (fuel + 1) ping cok now k s =
      (match (createConn (cok k) now s).1 with
       | some c => (GetRes.ok c, (createConn (cok k) now s).2)
       | none => (GetRes.err PErr.connectFailed, (createConn (cok k) now s).2)) := by
  simp only [get]
  rw [h]
  simp only [if_pos hlt]

/-- One step of `Get` with an empty idle channel and no spare capacity: the
pending counter rises, the wait can only end in the timeout (no concurrent
sender exists in this sequential model), and the `PoolExhausted` error reports
total/available/max; the deferred decrement restores the counter. -/
theorem get_step_exhausted (ping cok : Nat → Bool) (now k fuel : Nat) (s : PoolSt)
    (h : s.idle = []) (hge : ¬ s.openConns.length < s.config.maxConnections) :
    get (fuel + 1) ping cok now k s =
      (GetRes.err (PErr.poolExhausted s.openConns.length 0 s.config.maxConnections),
       s) := by
  simp only [get]
  rw [h]
  simp only [if_neg hge]
  simp [h]
  rw [← h]

/-- Zero leases: the fresh pool is `afterN 0`. -/
theorem afterN_zero (cfg : Config) (now : Nat) : afterN cfg now 0 = freshPool cfg := by
  unfold afterN freshPool
  congr 1

/-- Creating a connection on `afterN n` yields connection `n` and `afterN
(n+1)`. -/
theorem createConn_afterN (cfg : Config) (now n : Nat) :
    (createConn true now (afterN cfg now n)).2 = afterN cfg now (n + 1) := by
  unfold createConn afterN setConn
  rw [if_pos rfl]
  simp only []
  rw [PoolSt.mk.injEq]
  refine ⟨rfl, ?_, rfl, rfl, rfl, ?_⟩
  · simp [List.range_succ]
  · funext i
    by_cases hi : i = n
    · subst hi
      simp
    · by_cases hi2 : i < n
      · simp [hi, hi2, Nat.lt_succ_of_lt hi2]
      · have h3 : ¬ i < n + 1 := by
          rw [Nat.lt_succ_iff]
          intro hle
          rcases Nat.lt_or_eq_of_le hle with h4 | h4
          · exact hi2 h4
          · exact hi h4
        simp [hi, hi2, h3]

/-- One successful lease step from `afterN n` (below capacity). -/
theorem lease_step (cfg : Config) (now n : Nat) (h : n < cfg.maxConnections) :
    get 1 (fun _ => true) (fun _ => true) now 0 (afterN cfg now n) =
      (GetRes.ok n, afterN cfg now (n + 1)) := by
  have h1 : (afterN cfg now n).idle = [] := rfl
  have hlt : (afterN cfg now n).openConns.length <
      (afterN cfg now n).config.maxConnections := by
    simpa [afterN] using h
  have step := get_step_create (fun _ => true) (fun _ => true) now 0 0
    (afterN cfg now n) h1 hlt
  norm_num at step
  rw [step]
  have hcc := createConn_afterN cfg now n
  have h1' : (createConn true now (afterN cfg now n)).1 = some n := rfl
  rw [h1', hcc]

/-- `n ≤ maxConnections` leases from a fresh pool all succeed, reaching
`afterN n`. -/
theorem leaseN_spec (cfg : Config) (now : Nat) :
    ∀ n, n ≤ cfg.maxConnections →
      leaseN cfg now n = ((List.range n).map GetRes.ok, afterN cfg now n) := by
  intro n
  induction n with
  | zero =>
    intro _
    simp [leaseN, afterN_zero]
  | succ m ih =>
    intro hle
    have hm : m ≤ cfg.maxConnections := by omega
    have hlt : m < cfg.maxConnections := by omega
    simp only [leaseN]
    rw [ih hm]
    simp only []
    rw [lease_step cfg now m hlt]
    simp [List.range_succ]

end GetLemmas

/-- Claim C1: `Get` attempts, in order: (1) non-blocking pop of an idle
connection with mandatory verification, discarding and retrying on failure;
(2) if the open set is strictly below the maximum, synchronous creation;
(3) otherwise increment pending and wait, and on timeout return a
`PoolExhausted` error carrying the total/available/maximum counts.  From a
fresh pool with every connect succeeding, any `N ≤ maxConnections` leases all
succeed with `Size() = (N, 0)`, and one further lease fails with
`PoolExhausted`. -/
theorem C1_get_order_and_scenario :
    (∀ (ping cok : Nat → Bool) (now k fuel : Nat) (s : PoolSt) (c : ConnId)
        (rest : List ConnId), s.idle = c :: rest →
      get (fuel + 1) ping cok now k s =
        (if (verify c (ping k) (cok k) now { s with idle := rest }).1 then
          (GetRes.ok c, (verify c (ping k) (cok k) now { s with idle := rest }).2)
         else get fuel ping cok now (k + 1)
           (verify c (ping k) (cok k) now { s with idle := rest }).2)) ∧
    (∀ (ping cok : Nat → Bool) (now k fuel : Nat) (s : PoolSt),
      s.idle = [] → s.openConns.length < s.config.maxConnections →
      get (fuel + 1) ping cok now k s =
        (match (createConn (cok k) now s).1 with
         | some c => (GetRes.ok c, (createConn (cok k) now s).2)
         | none => (GetRes.err PErr.connectFailed, (createConn (cok k) now s).2))) ∧
    (∀ (ping cok : Nat → Bool) (now k fuel : Nat) (s : PoolSt),
      s.idle = [] → ¬ s.openConns.length < s.config.maxConnections →
      get (fuel + 1) ping cok now k s =
        (GetRes.err (PErr.poolExhausted s.openConns.length 0 s.config.maxConnections),
         s)) ∧
    (∀ (cfg : Config) (now N : Nat), N ≤ cfg.maxConnections →
      (leaseN cfg now N).1 = (List.range N).map GetRes.ok ∧
      size (leaseN cfg now N).2 = (N, 0)) ∧
    (∀ (cfg : Config) (now : Nat),
      (get 1 (fun _ => true) (fun _ => true) now 0
          (leaseN cfg now cfg.maxConnections).2).1 =
        GetRes.err
          (PErr.poolExhausted cfg.maxConnections 0 cfg.maxConnections)) := by
  refine ⟨get_step_idle, get_step_create, get_step_exhausted, ?_, ?_⟩
  · intro cfg now N hle
    rw [leaseN_spec cfg now N hle]
    exact ⟨rfl, by simp [size, afterN]⟩
  · intro cfg now
    rw [leaseN_spec cfg now cfg.maxConnections le_rfl]
    simp only []
    have h1 : (afterN cfg now cfg.maxConnections).idle = [] := rfl
    have hge : ¬ (afterN cfg now cfg.maxConnections).openConns.length <
        (afterN cfg now cfg.maxConnections).config.maxConnections := by
      simp [afterN]
    have step := get_step_exhausted (fun _ => true) (fun _ => true) now 0 0
      (afterN cfg now cfg.maxConnections) h1 hge
    norm_num at step
    rw [step]
    simp [afterN]

/-- Witness for C1 at `cfg1` (capacity 1): a single lease succeeds with size
(1, 0), a second lease reports `PoolExhausted (1, 0, 1)`. -/
theorem C1_get_order_and_scenario_witness :
    (leaseN cfg1 0 1).1 = [GetRes.ok 0] ∧
    size (leaseN cfg1 0 1).2 = (1, 0) ∧
    (get 1 (fun _ => true) (fun _ => true) 0 0 (leaseN cfg1 0 1).2).1 =
      GetRes.err (PErr.poolExhausted 1 0 1) := by
  obtain ⟨a1, a2, a3, b, e⟩ := C1_get_order_and_scenario
  have hb := b cfg1 0 1 (by decide)
  exact ⟨hb.1, hb.2, e cfg1 0⟩

section InvariantLemmas

/-- `createConn` preserves the invariants whenever the open set is strictly
below capacity (as it is at the creation step inside `Get`, and after the
removal inside `Destroy`'s backfill). -/
theorem createConn_inv {cok : Bool} {now : Nat} {s : PoolSt}
    (inv : Invariant s) (hlt : s.openConns.length < s.config.maxConnections) :
    Invariant (createConn cok now s).2 := by
  obtain ⟨hndo, hndi, hlen, hlei, hsub, hfresh, hpm, hmp⟩ := inv
  unfold createConn
  cases cok
  · simp only [Bool.false_eq_true, if_false]
    exact ⟨hndo, hndi, hlen, hlei, hsub,
      fun x hx => Nat.lt_succ_of_lt (hfresh x hx), hpm, hmp⟩
  · rw [if_pos rfl]
    have hnot : s.nextId ∉ s.openConns := fun hmem => Nat.lt_irrefl _ (hfresh _ hmem)
    refine ⟨List.nodup_cons.mpr ⟨hnot, hndo⟩, hndi, Nat.succ_le_of_lt hlt,
      Nat.le_trans hlei (Nat.le_succ _), ?_, ?_, ?_, ?_⟩
    · intro x hx
      exact List.mem_cons_of_mem _ (hsub x hx)
    · intro x hx
      rcases List.mem_cons.mp hx with h1 | h1
      · subst h1
        exact Nat.lt_succ_self _
      · exact Nat.lt_succ_of_lt (hfresh x h1)
    · intro x hx
      rcases List.mem_cons.mp hx with h1 | h1
      · subst h1
        rw [setConn_tbl_self]
      · have hne : x ≠ s.nextId := Nat.ne_of_lt (hfresh x h1)
        rw [setConn_tbl_ne _ _ _ _ hne]
        exact hpm x h1
    · intro x hx
      by_cases hxe : x = s.nextId
      · subst hxe
        exact List.mem_cons_self _ _
      · rw [setConn_tbl_ne _ _ _ _ hxe] at hx
        exact List.mem_cons_of_mem _ (hmp x hx)

/-- `destroy` preserves the invariants on any caller-owned connection (one not
sitting in the idle queue) — in particular the backfill cannot exceed capacity
because the destroyed connection leaves the open set first. -/
theorem destroy_inv {c : ConnId} {bfOk : Bool} {now : Nat} {s : PoolSt}
    (inv : Invariant s) (hci : c ∉ s.idle) :
    Invariant (destroy c bfOk now s) := by
  obtain ⟨hndo, hndi, hlen, hlei, hsub, hfresh, hpm, hmp⟩ := inv
  cases hp : (s.tbl c).hasPool
  · rw [destroy_not_pooled hp]
    split
    · refine ⟨hndo, hndi, hlen, hlei, hsub, hfresh, ?_, ?_⟩
      · intro x hx
        rw [closeConn_hasPool]
        exact hpm x hx
      · intro x hx
        rw [closeConn_hasPool] at hx
        exact hmp x hx
    · exact ⟨hndo, hndi, hlen, hlei, hsub, hfresh, hpm, hmp⟩
  · have hcin : c ∈ s.openConns := hmp c hp
    have herase1 : (s.openConns.erase c).length + 1 = s.openConns.length :=
      List.length_erase_add_one hcin
    have hsubid : s.idle ⊆ s.openConns.erase c := by
      intro x hx
      have hxn : x ≠ c := fun he => hci (he ▸ hx)
      exact (List.mem_erase_of_ne hxn).mpr (hsub x hx)
    have hleni : s.idle.length ≤ (s.openConns.erase c).length :=
      (List.subperm_of_subset hndi hsubid).length_le
    -- the invariants for the bookkeeping state `destroyBase c s`
    have hbase : Invariant (destroyBase c s) := by
      refine ⟨hndo.erase c, hndi, ?_, hleni, hsubid, ?_, ?_, ?_⟩
      · exact Nat.le_trans ((List.erase_sublist c s.openConns).length_le) hlen
      · intro x hx
        exact hfresh x (List.erase_subset _ _ hx)
      · intro x hx
        have hxc : x ≠ c := ((List.Nodup.mem_erase_iff hndo).mp hx).1
        show ((setConn c _ _).tbl x).hasPool = true
        rw [setConn_tbl_ne _ _ _ _ hxc]
        exact hpm x (List.erase_subset _ _ hx)
      · intro x hx
        by_cases hxc : x = c
        · have he : (destroyBase c s).tbl x =
              { s.tbl c with connected := false, stmts := [], hasPool := false } := by
            rw [hxc]
            exact setConn_tbl_self _ _ _
          rw [he] at hx
          cases hx
        · rw [show (destroyBase c s).tbl x = s.tbl x from setConn_tbl_ne _ _ _ _ hxc] at hx
          exact (List.mem_erase_of_ne hxc).mpr (hmp x hx)
    rw [destroy_pooled_eq hp]
    unfold destroyPooled
    simp only []
    by_cases hpend : 0 < (destroyBase c s).numPending
    · rw [if_pos hpend]
      cases bfOk
      · -- backfill creation failed: only the id allocator moved
        obtain ⟨b1, b2, b3, b4, b5, b6, b7, b8⟩ := hbase
        exact ⟨b1, b2, b3, b4, b5, fun x hx => Nat.lt_succ_of_lt (b6 x hx), b7, b8⟩
      · -- backfill succeeded: fresh connection s.nextId opened and made idle
        obtain ⟨b1, b2, b3, b4, b5, b6, b7, b8⟩ := hbase
        have hnot : s.nextId ∉ s.openConns.erase c := fun hmem =>
          Nat.lt_irrefl _ (b6 _ hmem)
        have hnoti : s.nextId ∉ s.idle := fun hmem =>
          Nat.lt_irrefl _ (hfresh _ (hsub _ hmem))
        show Invariant
          { config := s.config,
            openConns := s.nextId :: s.openConns.erase c,
            idle := s.idle ++ [s.nextId],
            numPending := s.numPending,
            nextId := s.nextId + 1,
            tbl := fun i =>
              if i = s.nextId then
                { connected := true, stmts := [],
                  expiry := now + s.config.maxConnectionAge, hasPool := true }
              else (destroyBase c s).tbl i }
        refine ⟨List.nodup_cons.mpr ⟨hnot, b1⟩, ?_, ?_, ?_, ?_, ?_, ?_, ?_⟩
        · exact List.nodup_append.mpr ⟨hndi, List.nodup_singleton _,
            fun x hx hx' => hnoti ((List.mem_singleton.mp hx') ▸ hx)⟩
        · show (s.openConns.erase c).length + 1 ≤ s.config.maxConnections
          rw [herase1]
          exact hlen
        · show (s.idle ++ [s.nextId]).length ≤ (s.openConns.erase c).length + 1
          rw [List.length_append, List.length_singleton]
          exact Nat.add_le_add_right hleni 1
        · intro x hx
          rcases List.mem_append.mp hx with h1 | h1
          · exact List.mem_cons_of_mem _ (hsubid h1)
          · rw [List.mem_singleton.mp h1]
            exact List.mem_cons_self _ _
        · intro x hx
          rcases List.mem_cons.mp hx with h1 | h1
          · subst h1
            exact Nat.lt_succ_self _
          · exact Nat.lt_succ_of_lt (b6 x h1)
        · intro x hx
          simp only []
          rcases List.mem_cons.mp hx with h1 | h1
          · rw [if_pos h1]
          · have hne : ¬ x = s.nextId := Nat.ne_of_lt (b6 x h1)
            rw [if_neg hne]
            exact b7 x h1
        · intro x hx
          simp only [] at hx
          by_cases hxe : x = s.nextId
          · rw [hxe]
            exact List.mem_cons_self _ _
          · rw [if_neg hxe] at hx
            exact List.mem_cons_of_mem _ (b8 x hx)
    · rw [if_neg hpend]
      exact hbase

/-- `Release` preserves the invariants on any caller-owned connection. -/
theorem release_inv {c : ConnId} {pingOk bfOk : Bool} {now : Nat} {s : PoolSt}
    (inv : Invariant s) (hci : c ∉ s.idle) :
    Invariant (release c pingOk bfOk now s).2 := by
  cases hp : (s.tbl c).hasPool
  · have e : (release c pingOk bfOk now s).2 = s := by
      simp [release, hp]
    rw [e]
    exact inv
  · cases hk : s.config.keepConnectionsAlive
    · have e : (release c pingOk bfOk now s).2 = destroy c bfOk now s := by
        simp [release, hp, hk]
      rw [e]
      exact destroy_inv inv hci
    · rcases verify_cases c pingOk bfOk now s with hv | hv
      · by_cases hq : s.idle.length < s.config.maxConnections
        · have e : (release c pingOk bfOk now s).2 = { s with idle := s.idle ++ [c] } := by
            simp [release, hp, hk, hv, hq]
          rw [e]
          obtain ⟨hndo, hndi, hlen, hlei, hsub, hfresh, hpm, hmp⟩ := inv
          have hcin : c ∈ s.openConns := hmp c hp
          have hnd2 : (s.idle ++ [c]).Nodup :=
            List.nodup_append.mpr ⟨hndi, List.nodup_singleton _,
              fun x hx hx' => hci ((List.mem_singleton.mp hx') ▸ hx)⟩
          have hsub2 : s.idle ++ [c] ⊆ s.openConns := by
            intro x hx
            rcases List.mem_append.mp hx with h1 | h1
            · exact hsub x h1
            · rw [List.mem_singleton.mp h1]
              exact hcin
          exact ⟨hndo, hnd2, hlen, (List.subperm_of_subset hnd2 hsub2).length_le,
            fun x hx => hsub2 hx, hfresh, hpm, hmp⟩
        · have e : (release c pingOk bfOk now s).2 = destroy c bfOk now s := by
            simp [release, hp, hk, hv, hq]
          rw [e]
          exact destroy_inv inv hci
      · have e : (release c pingOk bfOk now s).2 =
            destroy c bfOk now (destroy c bfOk now s) := by
          simp [release, hp, hk, hv]
        rw [e]
        have inv2 : Invariant (destroy c bfOk now s) := destroy_inv inv hci
        have hci2 : c ∉ (destroy c bfOk now s).idle := by
          rcases destroy_idle c bfOk now s with h | h <;> rw [h]
          · exact hci
          · intro hmem
            rcases List.mem_append.mp hmem with h1 | h1
            · exact hci h1
            · obtain ⟨hndo, hndi, hlen, hlei, hsub, hfresh, hpm, hmp⟩ := inv
              exact Nat.ne_of_lt (hfresh c (hmp c hp)) (List.mem_singleton.mp h1)
        exact destroy_inv inv2 hci2

/-- `Get` preserves the invariants, for any fuel and any oracle behaviour. -/
theorem get_inv (ping cok : Nat → Bool) (now : Nat) :
    ∀ (fuel k : Nat) (s : PoolSt), Invariant s →
      Invariant (get fuel ping cok now k s).2 := by
  intro fuel
  induction fuel with
  | zero =>
    intro k s inv
    exact inv
  | succ fuel ih =>
    intro k s inv
    cases hidle : s.idle with
    | cons c rest =>
      rw [get_step_idle ping cok now k fuel s c rest hidle]
      have hndi := inv.2.1
      rw [hidle] at hndi
      have hci : c ∉ rest := (List.nodup_cons.mp hndi).1
      have inv1 : Invariant { s with idle := rest } := by
        obtain ⟨hndo, hndi0, hlen, hlei, hsub, hfresh, hpm, hmp⟩ := inv
        rw [hidle] at hndi0 hlei hsub
        refine ⟨hndo, (List.nodup_cons.mp hndi0).2, hlen, Nat.le_of_succ_le hlei, ?_,
          hfresh, hpm, hmp⟩
        intro x hx
        exact hsub x (List.mem_cons_of_mem c hx)
      rcases verify_cases c (ping k) (cok k) now { s with idle := rest } with hv | hv
      · rw [hv]
        simp only [Prod.fst, Prod.snd, if_true]
        exact inv1
      · rw [hv]
        simp only [Prod.fst, Prod.snd, Bool.false_eq_true, if_false]
        exact ih (k + 1) _ (destroy_inv inv1 hci)
    | nil =>
      by_cases hlt : s.openConns.length < s.config.maxConnections
      · rw [get_step_create ping cok now k fuel s hidle hlt]
        rcases hr : (createConn (cok k) now s).1 with _ | c
        · exact createConn_inv inv hlt
        · exact createConn_inv inv hlt
      · rw [get_step_exhausted ping cok now k fuel s hidle hlt]
        exact inv

/-- `onePool` (one open, leased-out connection, capacity 1) satisfies the pool
invariants. -/
theorem invariant_onePool : Invariant onePool := by
  refine ⟨?_, ?_, ?_, ?_, ?_, ?_, ?_, ?_⟩
  · decide
  · decide
  · decide
  · decide
  · intro x hx
    exact absurd hx (List.not_mem_nil x)
  · intro x hx
    rw [show onePool.openConns = [0] from rfl] at hx
    rw [List.mem_singleton.mp hx]
    decide
  · intro x hx
    rw [show onePool.openConns = [0] from rfl] at hx
    rw [List.mem_singleton.mp hx]
    decide
  · intro x hx
    by_cases h0 : x = 0
    · rw [h0]
      decide
    · have e : onePool.tbl x = default := by
        simp [onePool, createConn, freshPool, setConn, h0]
      rw [e] at hx
      exact Bool.noConfusion hx

end InvariantLemmas

/-- Claim C4 counterexample: the state `onePool` (capacity 1, one open
connection) satisfies the invariants, yet the connection-creation operation
(the exported `Pool.Conn`, which calls `createConn` with no capacity check)
pushes the open-set size above the configured maximum.  "Every pool operation
(lease, release, destroy, connection creation, backfill) preserves
|open set| ≤ maximum" is therefore false as stated. -/
theorem C4_pool_invariants_counterexample :
    Invariant onePool ∧
    ¬ ((poolConn true 0 onePool).2.openConns.length ≤
        (poolConn true 0 onePool).2.config.maxConnections) :=
  ⟨invariant_onePool, by decide⟩

/-- Claim C4 (amended): lease (`Get`, any fuel and oracle behaviour), release
(of a caller-owned connection), destroy (of a caller-owned connection,
including its backfill — safe because the destroyed connection leaves the open
set under the same lock before the replacement is created), and connection
creation **when the open-set size is strictly below the maximum** (as at the
creation step inside `Get` and inside the backfill) all preserve the pool
invariants: the open set stays duplicate-free and within the maximum, the idle
queue never exceeds the open set, every idle connection is open, and open-set
membership agrees with the pool back-references.  (Bare `createConn` — the
exported `Pool.Conn` — performs no capacity check and does not preserve the
capacity bound; see the counterexample.) -/
theorem C4_pool_invariants_preserved :
    (∀ (ping cok : Nat → Bool) (now fuel k : Nat) (s : PoolSt),
      Invariant s → Invariant (get fuel ping cok now k s).2) ∧
    (∀ (c : ConnId) (pingOk bfOk : Bool) (now : Nat) (s : PoolSt),
      Invariant s → c ∉ s.idle → Invariant (release c pingOk bfOk now s).2) ∧
    (∀ (c : ConnId) (bfOk : Bool) (now : Nat) (s : PoolSt),
      Invariant s → c ∉ s.idle → Invariant (destroy c bfOk now s)) ∧
    (∀ (cok : Bool) (now : Nat) (s : PoolSt),
      Invariant s → s.openConns.length < s.config.maxConnections →
      Invariant (createConn cok now s).2) :=
  ⟨fun ping cok now fuel k s inv => get_inv ping cok now fuel k s inv,
   fun _ _ _ _ _ inv h => release_inv inv h,
   fun _ _ _ _ inv h => destroy_inv inv h,
   fun _ _ _ inv h => createConn_inv inv h⟩

/-- Witness for C4 (amended) on `onePool`: a release and a lease both keep the
invariants. -/
theorem C4_pool_invariants_preserved_witness :
    Invariant (release 0 true true 0 onePool).2 ∧
    Invariant (get 1 (fun _ => true) (fun _ => true) 0 0 onePool).2 := by
  obtain ⟨hget, hrel, hdes, hcreate⟩ := C4_pool_invariants_preserved
  exact ⟨hrel 0 true true 0 onePool invariant_onePool (List.not_mem_nil 0),
         hget (fun _ => true) (fun _ => true) 0 1 0 onePool invariant_onePool⟩

end MymysqlPool
